import Mathlib

/-!
Verification development for the population-dynm-sim core (src/lib.rs).

The Rust core is a continuous-time spatial birth/death simulator on the unit
torus.  This file gives a shallow embedding of the core data model and
operations over the reals (f64 values are modelled as elements of the real
field; the random generator is modelled as an explicit stream of real draws,
one value consumed per call site, in program order), and proves or refutes
the frozen specification claims about it.

Modelling conventions:
- f64 arithmetic is real arithmetic; division by zero yields 0 in the real
  model (in f64 it yields NaN or an infinity; theorems touching such points
  state the defect explicitly rather than relying on the real convention).
- rand WeightedIndex sampling is modelled by inverse-CDF selection over the
  cumulative weights, applied to a draw u from the uniform range, together
  with a validity predicate capturing when WeightedIndex construction
  succeeds (no negative weight, total weight nonzero).
- The ndarray distance matrix is modelled as a total function on pairs of
  natural indices; entries outside the current size hold the value 1, which
  is exactly the value ndarray ones-initialisation gives them.
-/

noncomputable section

namespace PopSim

/-- Per-species parameters, one field per column of the Rust Species struct. -/
structure Species where
  id : ℕ
  b0 : ℝ
  b1 : ℝ
  c1 : ℝ
  d0 : ℝ
  d1 : ℝ
  mbrmax : ℝ
  mbsd : ℝ
  mintegral : ℝ
  move_radius_max : ℝ
  move_std : ℝ
  birth_radius_max : ℝ
  birth_std : ℝ
  death_radius_max : ℝ
  death_std : ℝ

instance : Inhabited Species :=
  ⟨⟨0, 0, 0, 0, 0, 0, 0, 0, 0, 0, 0, 0, 0, 0, 0⟩⟩

/-- The event alternatives of the Rust enum Event (Move is commented out in
the source and does not exist as a constructor). -/
inductive Event where
  | Birth : Event
  | Death : Event
deriving DecidableEq

/-- An individual of the population, all fields as in the Rust struct. -/
structure Individual where
  id : ℕ
  species : Species
  x_coord : ℝ
  y_coord : ℝ
  p_birth : ℝ
  p_death : ℝ
  p_move : ℝ
  birth_neighbor_weight : ℝ
  death_neighbor_weight : ℝ

/-- Individual::new. -/
def Individual.new (id : ℕ) (species : Species) (x_coord y_coord : ℝ) : Individual :=
  { id := id
    species := species
    x_coord := x_coord
    y_coord := y_coord
    p_birth := 0
    p_death := 0
    p_move := 0
    birth_neighbor_weight := 0
    death_neighbor_weight := 0 }

instance : Inhabited Individual := ⟨Individual.new 0 default 0 0⟩

instance : DecidableEq Individual := Classical.decEq _

/-- The per-axis wrapped delta computed inside Individual::distance:
inside_delta = abs of the coordinate difference, then min with 1 - inside_delta. -/
def wrappedDelta (a b : ℝ) : ℝ :=
  min |a - b| (1 - |a - b|)

/-- Individual::distance: Euclidean norm of the two per-axis wrapped deltas. -/
def Individual.distance (self other : Individual) : ℝ :=
  Real.sqrt ((wrappedDelta self.x_coord other.x_coord) ^ 2 +
    (wrappedDelta self.y_coord other.y_coord) ^ 2)

/-- Individual::update_probabilities. -/
def Individual.update_probabilities (self : Individual) : Individual :=
  { self with
    p_birth := self.species.b0 + self.birth_neighbor_weight
    p_death := self.species.d0 + self.death_neighbor_weight
    p_move := self.species.mintegral }

/-- A recorded snapshot: simulated time plus per-species coordinate arrays. -/
structure Checkpoint where
  time : ℝ
  species_individuals : List (List ℝ × List ℝ)
deriving Inhabited

/-- The ordered sequence of checkpoints. -/
structure History where
  checkpoints : List Checkpoint

/-- The population state.  The distance matrix is modelled as a total
function; indices at or beyond the current size hold 1 (ndarray ones). -/
structure Population where
  species_list : List Species
  individuals : List Individual
  size : ℕ
  distances : ℕ → ℕ → ℝ
  history : History
  t : ℝ

/-- The Rust cast species.c1 as usize: truncation toward zero, saturating at
zero for negative values; on nonnegative reals this is the natural floor. -/
def speciesCount (s : Species) : ℕ := ⌊s.c1⌋₊

/-- The double loop of Population::new creating speciesCount individuals per
species; idx is the running individual counter and the random stream is
consumed two draws (x then y) per individual, in creation order. -/
def initIndividualsGo (rng : ℕ → ℝ) : List Species → ℕ → List Individual
  | [], _ => []
  | s :: rest, idx =>
      ((List.range (speciesCount s)).map fun k =>
        Individual.new (idx + k) s (rng (2 * (idx + k))) (rng (2 * (idx + k) + 1)))
        ++ initIndividualsGo rng rest (idx + speciesCount s)

/-- Population::new.  The initial individuals carry ids 0,1,2,... equal to
their list positions, so the id-indexed distance writes of the source
coincide with position-indexed writes; the matrix starts as ones and only
pairs with distinct ids inside the range are overwritten, so the diagonal
and all out-of-range entries stay 1.  The initial checkpoint is recorded
with an empty species_individuals vector, exactly as in the source. -/
def Population.new (species_list : List Species) (rng : ℕ → ℝ) : Population :=
  let individuals := initIndividualsGo rng species_list 0
  let n := individuals.length
  { species_list := species_list
    individuals := individuals
    size := n
    distances := fun i j =>
      if i < n ∧ j < n ∧ i ≠ j then
        Individual.distance (individuals.getD i default) (individuals.getD j default)
      else 1
    history := { checkpoints := [{ time := 0, species_individuals := [] }] }
    t := 0 }

/-- The per-event kernel radius selected inside compute_neighbor_weights. -/
def eventRadius (e : Event) (s : Species) : ℝ :=
  match e with
  | Event.Birth => s.birth_radius_max
  | Event.Death => s.death_radius_max

/-- The per-event kernel standard deviation (the field the source squares). -/
def eventStd (e : Event) (s : Species) : ℝ :=
  match e with
  | Event.Birth => s.birth_std
  | Event.Death => s.death_std

/-- The per-event kernel variance: the squared std, as in the source. -/
def eventVar (e : Event) (s : Species) : ℝ :=
  match e with
  | Event.Birth => s.birth_std ^ 2
  | Event.Death => s.death_std ^ 2

/-- The per-event effect coefficient b1 or d1. -/
def eventEffect (e : Event) (s : Species) : ℝ :=
  match e with
  | Event.Birth => s.b1
  | Event.Death => s.d1

/-- The norm computed inside compute_neighbor_weights: 0 when the variance is
zero, else 2 v pi (1 - exp(-r^2 / (2 v))). -/
def kernelNorm (r v : ℝ) : ℝ :=
  if v = 0 then 0 else 2 * v * Real.pi * (1 - Real.exp ((-1 * r ^ 2) / (2 * v)))

/-- One entry of the weight_full matrix: zero when the variance is zero, the
norm is zero or the mask (distance strictly below radius) fails, else the
normalised Gaussian kernel weight. -/
def weightEntry (d r v : ℝ) : ℝ :=
  if v = 0 ∨ kernelNorm r v = 0 ∨ ¬d < r then 0
  else Real.exp ((-1 * d ^ 2) / (2 * v)) / kernelNorm r v

/-- Population::compute_neighbor_weights: row i of the size x size weight
matrix uses row individual i's radius, variance and norm against the stored
distances (including the diagonal sentinel), is summed along the row, and is
scaled by individual i's effect coefficient. -/
def Population.compute_neighbor_weights (pop : Population) (e : Event) : List ℝ :=
  (List.range pop.size).map fun i =>
    (((List.range pop.size).map fun j =>
        weightEntry (pop.distances i j)
          (eventRadius e (pop.individuals.getD i default).species)
          (eventVar e (pop.individuals.getD i default).species)).sum)
      * eventEffect e (pop.individuals.getD i default).species

/-- Writing one neighbor weight into the field selected by the event. -/
def Individual.set_neighbor_weight (e : Event) (w : ℝ) (i : Individual) : Individual :=
  match e with
  | Event.Birth => { i with birth_neighbor_weight := w }
  | Event.Death => { i with death_neighbor_weight := w }

/-- The iter_mut().zip(weight) loop of update_neighbor_weights: individuals
beyond the weight vector are left untouched. -/
def zipSetWeights (e : Event) : List Individual → List ℝ → List Individual
  | [], _ => []
  | is, [] => is
  | i :: is, w :: ws => Individual.set_neighbor_weight e w i :: zipSetWeights e is ws

/-- Population::update_neighbor_weights. -/
def Population.update_neighbor_weights (pop : Population) (weight : List ℝ) (e : Event) :
    Population :=
  { pop with individuals := zipSetWeights e pop.individuals weight }

/-- Population::update_probabilities. -/
def Population.update_probabilities (pop : Population) : Population :=
  { pop with individuals := pop.individuals.map Individual.update_probabilities }

/-- Rust f64 truncation toward zero (the integer part used by the % operator). -/
def rustTrunc (x : ℝ) : ℤ :=
  if 0 ≤ x then ⌊x⌋ else ⌈x⌉

/-- Rust remainder x % 1.0: x minus its truncation toward zero. -/
def rustRem1 (x : ℝ) : ℝ := x - rustTrunc x

/-- The child coordinate wrap of execute_birth: sample % 1.0, then + 1.0 if
the remainder is negative. -/
def wrapCoord (x : ℝ) : ℝ :=
  if rustRem1 x < 0 then rustRem1 x + 1 else rustRem1 x

/-- The max of the live ids, as computed by execute_birth (the source unwraps
the iterator max and hence panics on an empty population; this model returns
0 there, and every theorem about births carries a nonemptiness hypothesis). -/
def maxId (l : List Individual) : ℕ :=
  (l.map fun x => x.id).foldr max 0

/-- Population::execute_birth.  rx and ry are the two Normal samples drawn
for the child position (the distribution is centred on the parent; only the
deterministic wrap of the sampled value is modelled).  The new distance
matrix is ones of size n+1 with the old matrix in the leading block and the
child distances in the last row and column; entry (n, n) keeps the value 1. -/
def Population.execute_birth (pop : Population) (parent_id : ℕ) (rx ry : ℝ) : Population :=
  let parent := pop.individuals.getD parent_id default
  let child := Individual.new (maxId pop.individuals + 1) parent.species
    (wrapCoord rx) (wrapCoord ry)
  let n := pop.size
  { pop with
    individuals := pop.individuals ++ [child]
    size := n + 1
    distances := fun i j =>
      if i < n ∧ j < n then pop.distances i j
      else if i = n ∧ j < n then
        Individual.distance (pop.individuals.getD j default) child
      else if i < n ∧ j = n then
        Individual.distance (pop.individuals.getD i default) child
      else 1 }

/-- Index shift performed by ndarray remove_index on each axis. -/
def skipIdx (k i : ℕ) : ℕ :=
  if i < k then i else i + 1

/-- Population::execute_death: remove row and column deceased_id from the
distance matrix and remove the individual at that position. -/
def Population.execute_death (pop : Population) (deceased_id : ℕ) : Population :=
  { pop with
    individuals := pop.individuals.eraseIdx deceased_id
    size := pop.size - 1
    distances := fun i j => pop.distances (skipIdx deceased_id i) (skipIdx deceased_id j) }

/-- The fold accumulating the birth intensities in choose_event. -/
def pBirthSum (pop : Population) : ℝ :=
  pop.individuals.foldl (fun acc x => acc + x.p_birth) 0

/-- The fold accumulating the death intensities in choose_event. -/
def pDeathSum (pop : Population) : ℝ :=
  pop.individuals.foldl (fun acc x => acc + x.p_death) 0

/-- The fold accumulating the move intensities in choose_event. -/
def pMoveSum (pop : Population) : ℝ :=
  pop.individuals.foldl (fun acc x => acc + x.p_move) 0

/-- The total rate R computed in choose_event. -/
def pTotal (pop : Population) : ℝ :=
  pBirthSum pop + pDeathSum pop + pMoveSum pop

/-- The choices vector of choose_event: Birth, Death, Death (the third slot
is the vestigial Move slot, folded into Death). -/
def chooseEventChoices : List Event :=
  [Event.Birth, Event.Death, Event.Death]

/-- The weights vector of choose_event: each aggregate divided by the total
rate.  When the total rate is zero these are 0/0: NaN in f64, 0 in this real
model; either way WeightedIndex construction fails. -/
def Population.event_weights (pop : Population) : List ℝ :=
  [pBirthSum pop / pTotal pop, pDeathSum pop / pTotal pop, pMoveSum pop / pTotal pop]

/-- Inverse-CDF selection over a weight list for a uniform draw u from
[0, total weight): the selected index is the first whose cumulative weight
exceeds u.  Out-of-range u yields the list length. -/
def weightedIndexSample : List ℝ → ℝ → ℕ
  | [], _ => 0
  | w :: ws, u => if u < w then 0 else weightedIndexSample ws (u - w) + 1

/-- When rand WeightedIndex::new succeeds: no negative weight and nonzero
total (rand reports InvalidWeight or AllWeightsZero otherwise, and the
unwrap in the source panics on either). -/
def weightedIndexOk (ws : List ℝ) : Prop :=
  (∀ w ∈ ws, 0 ≤ w) ∧ ws.sum ≠ 0

/-- Population::choose_event.  u1 and u2 are the two uniform draws consumed
by the two WeightedIndex samples (event type, then actor).  The source then
recovers the index of the chosen individual by searching for the first
individual equal to the sampled one. -/
def Population.choose_event (pop : Population) (u1 u2 : ℝ) : Event × ℕ × ℝ :=
  let chosen_event :=
    chooseEventChoices.getD (weightedIndexSample pop.event_weights u1) Event.Birth
  let actor_weights :=
    match chosen_event with
    | Event.Birth => pop.individuals.map fun x => x.p_birth / pBirthSum pop
    | Event.Death => pop.individuals.map fun x => x.p_death / pDeathSum pop
  let chosen_individual :=
    pop.individuals.getD (weightedIndexSample actor_weights u2) default
  let chosen_individual_id :=
    pop.individuals.findIdx fun x => decide (x = chosen_individual)
  (chosen_event, chosen_individual_id, pTotal pop)

/-- The deterministic prefix of Population::step: recompute and store the
neighbor weights for Birth then Death, then update all probabilities. -/
def Population.update_all_weights (pop : Population) : Population :=
  let p0 := pop.update_neighbor_weights (pop.compute_neighbor_weights Event.Birth) Event.Birth
  let p1 := p0.update_neighbor_weights (p0.compute_neighbor_weights Event.Death) Event.Death
  p1.update_probabilities

/-- Population::get_checkpoint: current time plus, per species in
species_list order, the unzipped coordinate pairs of exactly the live
individuals of that species. -/
def Population.get_checkpoint (pop : Population) : Checkpoint :=
  { time := pop.t
    species_individuals := pop.species_list.map fun s =>
      ((pop.individuals.filter fun x => x.species.id == s.id).map fun x =>
        (x.x_coord, x.y_coord)).unzip }

/-- Population::step: refresh weights and probabilities, choose an event and
actor, execute it, and return the new state with its checkpoint and the
total rate used. -/
def Population.step (pop : Population) (u1 u2 rx ry : ℝ) : Population × Checkpoint × ℝ :=
  let p := pop.update_all_weights
  let chosen := p.choose_event u1 u2
  let executed :=
    match chosen.1 with
    | Event.Birth => p.execute_birth chosen.2.1 rx ry
    | Event.Death => p.execute_death chosen.2.1
  (executed, executed.get_checkpoint, chosen.2.2)

/-- The time increment of Population::increment_time for a uniform draw u
from [0, 1): (-1 / p_total) * ln(1 - u). -/
def incrementTimeDelta (p_total u : ℝ) : ℝ :=
  (-1 / p_total) * Real.log (1 - u)

/-- Population::increment_time (the source asserts the delta is positive
before adding it; the theorems state when that assertion holds or fails). -/
def Population.increment_time (pop : Population) (p_total u : ℝ) : Population :=
  { pop with t := pop.t + incrementTimeDelta p_total u }

/-- Population states reachable through new, execute_birth and execute_death
with in-range actor indices (the only call sites the source has). -/
inductive Reachable : Population → Prop
  | init (species_list : List Species) (rng : ℕ → ℝ) :
      Reachable (Population.new species_list rng)
  | birth (pop : Population) (parent_id : ℕ) (rx ry : ℝ) :
      Reachable pop → parent_id < pop.size →
      Reachable (pop.execute_birth parent_id rx ry)
  | death (pop : Population) (deceased_id : ℕ) :
      Reachable pop → deceased_id < pop.size →
      Reachable (pop.execute_death deceased_id)

/-- The species of the individual at position i (shorthand projection). -/
def indSpec (pop : Population) (i : ℕ) : Species :=
  (pop.individuals.getD i default).species

/-- Modelled from the spec (section 4.3): one kernel summand of the
neighbor-effect formula, for a pair of distinct individuals: the normalised
Gaussian weight of the true pairwise distance when it is inside the radius,
else 0.  This is the spec-side comparator for the refinement claim about
compute_neighbor_weights. -/
def specKernelTerm (pop : Population) (i j : ℕ) (e : Event) : ℝ :=
  if Individual.distance (pop.individuals.getD i default) (pop.individuals.getD j default)
      < eventRadius e (indSpec pop i) then
    Real.exp (-(Individual.distance (pop.individuals.getD i default)
        (pop.individuals.getD j default)) ^ 2 / (2 * eventVar e (indSpec pop i)))
      / kernelNorm (eventRadius e (indSpec pop i)) (eventVar e (indSpec pop i))
  else 0

/-- Modelled from the spec (section 4.3): the neighbor effect of individual i
for an event kind is the effect coefficient times the sum of kernel weights
over exactly the other individuals within the kernel radius, or 0 when the
kernel std is zero (norm undefined). -/
def specNeighborEffect (pop : Population) (i : ℕ) (e : Event) : ℝ :=
  if eventStd e (indSpec pop i) = 0 then 0
  else
    eventEffect e (indSpec pop i) *
      (((List.range pop.size).filter fun j => j != i).map fun j =>
        specKernelTerm pop i j e).sum

/-- The all-zero random stream used for the concrete example populations. -/
def rngZ : ℕ → ℝ := fun _ => 0

/-- A species with one initial individual and every rate, radius and kernel
parameter zero: the exhaustion scenario of the spec. -/
def sEx : Species :=
  ⟨0, 0, 0, 1, 0, 0, 0, 0, 0, 0, 0, 0, 0, 0, 0⟩

/-- The one-individual population built from sEx. -/
def popEx : Population := Population.new [sEx] rngZ

/-- popEx after the weight refresh that Population::step performs before
choosing an event. -/
def pEx : Population := popEx.update_all_weights

/-- A species whose birth kernel radius 2 exceeds the diagonal sentinel 1
with a nonzero kernel std, exposing the sentinel self-term. -/
def sC4 : Species :=
  ⟨0, 0, 1, 1, 0, 0, 0, 0, 0, 0, 0, 2, 1, 0, 0⟩

/-- The one-individual population built from sC4. -/
def popC4 : Population := Population.new [sC4] rngZ

/-- A species with two initial individuals and all rates zero, used to show
id reuse after a death. -/
def sC7 : Species :=
  ⟨0, 0, 0, 2, 0, 0, 0, 0, 0, 0, 0, 0, 0, 0, 0⟩

/-- The two-individual population built from sC7 (ids 0 and 1). -/
def popC7 : Population := Population.new [sC7] rngZ

/-- A species with birth radius 2 above the sentinel but birth std zero. -/
def sC10 : Species :=
  ⟨0, 0, 1, 1, 0, 0, 0, 0, 0, 0, 0, 2, 0, 0, 0⟩

/-- The one-individual population built from sC10. -/
def popC10 : Population := Population.new [sC10] rngZ

/-- An individual with unit birth and death intensity, for the concrete
event-selection example. -/
def indC3W : Individual :=
  { id := 0
    species := default
    x_coord := 0
    y_coord := 0
    p_birth := 1
    p_death := 1
    p_move := 0
    birth_neighbor_weight := 0
    death_neighbor_weight := 0 }

/-- A concrete one-individual population state with total rate 2, used to
instantiate the event-selection theorem. -/
def popC3W : Population :=
  { species_list := []
    individuals := [indC3W]
    size := 1
    distances := fun _ _ => 1
    history := { checkpoints := [] }
    t := 0 }

/-- A species with a negative initial count. -/
def sNegC1 : Species :=
  ⟨0, 0, 0, -3, 0, 0, 0, 0, 0, 0, 0, 0, 0, 0, 0⟩

/-- A species with unit count but negative kernel std and radius. -/
def sNegStd : Species :=
  ⟨0, 0, 0, 1, 0, 0, 0, 0, 0, 0, 0, 0, -1, -2, 0⟩

/-! ### Projection lemmas (all definitional) -/

theorem new_individuals (sl : List Species) (rng : ℕ → ℝ) :
    (Population.new sl rng).individuals = initIndividualsGo rng sl 0 := rfl

theorem new_size (sl : List Species) (rng : ℕ → ℝ) :
    (Population.new sl rng).size = (initIndividualsGo rng sl 0).length := rfl

theorem new_species_list (sl : List Species) (rng : ℕ → ℝ) :
    (Population.new sl rng).species_list = sl := rfl

theorem new_t (sl : List Species) (rng : ℕ → ℝ) : (Population.new sl rng).t = 0 := rfl

theorem new_distances (sl : List Species) (rng : ℕ → ℝ) (i j : ℕ) :
    (Population.new sl rng).distances i j =
      if i < (initIndividualsGo rng sl 0).length ∧ j < (initIndividualsGo rng sl 0).length
          ∧ i ≠ j then
        Individual.distance ((initIndividualsGo rng sl 0).getD i default)
          ((initIndividualsGo rng sl 0).getD j default)
      else 1 := rfl

theorem birth_individuals (pop : Population) (parent_id : ℕ) (rx ry : ℝ) :
    (pop.execute_birth parent_id rx ry).individuals =
      pop.individuals ++ [Individual.new (maxId pop.individuals + 1)
        (pop.individuals.getD parent_id default).species (wrapCoord rx) (wrapCoord ry)] := rfl

theorem birth_size (pop : Population) (parent_id : ℕ) (rx ry : ℝ) :
    (pop.execute_birth parent_id rx ry).size = pop.size + 1 := rfl

theorem birth_distances (pop : Population) (parent_id : ℕ) (rx ry : ℝ) (i j : ℕ) :
    (pop.execute_birth parent_id rx ry).distances i j =
      if i < pop.size ∧ j < pop.size then pop.distances i j
      else if i = pop.size ∧ j < pop.size then
        Individual.distance (pop.individuals.getD j default)
          (Individual.new (maxId pop.individuals + 1)
            (pop.individuals.getD parent_id default).species (wrapCoord rx) (wrapCoord ry))
      else if i < pop.size ∧ j = pop.size then
        Individual.distance (pop.individuals.getD i default)
          (Individual.new (maxId pop.individuals + 1)
            (pop.individuals.getD parent_id default).species (wrapCoord rx) (wrapCoord ry))
      else 1 := rfl

theorem death_individuals (pop : Population) (deceased_id : ℕ) :
    (pop.execute_death deceased_id).individuals = pop.individuals.eraseIdx deceased_id := rfl

theorem death_size (pop : Population) (deceased_id : ℕ) :
    (pop.execute_death deceased_id).size = pop.size - 1 := rfl

theorem death_distances (pop : Population) (deceased_id : ℕ) (i j : ℕ) :
    (pop.execute_death deceased_id).distances i j =
      pop.distances (skipIdx deceased_id i) (skipIdx deceased_id j) := rfl

/-! ### Evaluation of the concrete example populations -/

theorem initGo_single_one (s : Species) (h : s.c1 = 1) (rng : ℕ → ℝ) :
    initIndividualsGo rng [s] 0 = [Individual.new 0 s (rng 0) (rng 1)] := by
  rw [initIndividualsGo, initIndividualsGo, speciesCount, h, Nat.floor_one]
  simp [show List.range 1 = [0] from rfl]

theorem initGo_single_two (s : Species) (h : s.c1 = 2) (rng : ℕ → ℝ) :
    initIndividualsGo rng [s] 0 =
      [Individual.new 0 s (rng 0) (rng 1), Individual.new 1 s (rng 2) (rng 3)] := by
  rw [initIndividualsGo, initIndividualsGo, speciesCount, h]
  rw [show ((2 : ℝ)) = ((2 : ℕ) : ℝ) by norm_num, Nat.floor_natCast]
  simp [show List.range 2 = [0, 1] from rfl]

theorem popEx_individuals : popEx.individuals = [Individual.new 0 sEx 0 0] := by
  rw [popEx, new_individuals, initGo_single_one sEx rfl rngZ]
  rfl

theorem popEx_size : popEx.size = 1 := by
  rw [popEx, new_size, initGo_single_one sEx rfl rngZ]
  rfl

theorem popEx_distances (i j : ℕ) : popEx.distances i j = 1 := by
  rw [popEx, new_distances]
  have hlen : (initIndividualsGo rngZ [sEx] 0).length = 1 := by
    rw [initGo_single_one sEx rfl rngZ]
    rfl
  split_ifs with h
  · exfalso
    obtain ⟨h1, h2, h3⟩ := h
    rw [hlen] at h1 h2
    omega
  · rfl

theorem popC4_individuals : popC4.individuals = [Individual.new 0 sC4 0 0] := by
  rw [popC4, new_individuals, initGo_single_one sC4 rfl rngZ]
  rfl

theorem popC4_size : popC4.size = 1 := by
  rw [popC4, new_size, initGo_single_one sC4 rfl rngZ]
  rfl

theorem popC4_distances (i j : ℕ) : popC4.distances i j = 1 := by
  rw [popC4, new_distances]
  have hlen : (initIndividualsGo rngZ [sC4] 0).length = 1 := by
    rw [initGo_single_one sC4 rfl rngZ]
    rfl
  split_ifs with h
  · exfalso
    obtain ⟨h1, h2, h3⟩ := h
    rw [hlen] at h1 h2
    omega
  · rfl

theorem popC10_individuals : popC10.individuals = [Individual.new 0 sC10 0 0] := by
  rw [popC10, new_individuals, initGo_single_one sC10 rfl rngZ]
  rfl

theorem popC10_size : popC10.size = 1 := by
  rw [popC10, new_size, initGo_single_one sC10 rfl rngZ]
  rfl

theorem popC10_distances (i j : ℕ) : popC10.distances i j = 1 := by
  rw [popC10, new_distances]
  have hlen : (initIndividualsGo rngZ [sC10] 0).length = 1 := by
    rw [initGo_single_one sC10 rfl rngZ]
    rfl
  split_ifs with h
  · exfalso
    obtain ⟨h1, h2, h3⟩ := h
    rw [hlen] at h1 h2
    omega
  · rfl

theorem popC7_individuals :
    popC7.individuals = [Individual.new 0 sC7 0 0, Individual.new 1 sC7 0 0] := by
  rw [popC7, new_individuals, initGo_single_two sC7 rfl rngZ]
  rfl

/-! ### Small general helper lemmas -/

theorem set_neighbor_weight_species (e : Event) (w : ℝ) (i : Individual) :
    (Individual.set_neighbor_weight e w i).species = i.species := by
  cases e <;> rfl

theorem le_maxId (l : List Individual) : ∀ a ∈ l, a.id ≤ maxId l := by
  induction l with
  | nil => simp
  | cons b t ih =>
      intro a ha
      rcases List.mem_cons.mp ha with h | h
      · subst h
        simp [maxId]
      · calc a.id ≤ maxId t := ih a h
          _ ≤ maxId (b :: t) := by simp [maxId]

theorem cnw_single_zero (pop : Population) (e : Event) (hs : pop.size = 1)
    (hv : eventVar e (pop.individuals.getD 0 default).species = 0) :
    pop.compute_neighbor_weights e = [0] := by
  rw [Population.compute_neighbor_weights, hs]
  rw [show List.range 1 = [0] from rfl]
  simp only [List.map_cons, List.map_nil, List.sum_cons, List.sum_nil]
  rw [weightEntry, if_pos (Or.inl hv)]
  simp

/-! ### Claim C2 -/

/-- C2: the distance between two individuals is the Euclidean norm of the
two per-axis wrapped deltas min(abs delta, 1 - abs delta); coordinates 0.01
and 0.99 on one axis give axis-delta 0.02 and never 0.98; coordinates
differing by exactly 0.5 give the axis-delta 0.5, which is the maximal
possible axis-delta. -/
theorem C2_toroidal_distance :
    (∀ a b : Individual, a.distance b =
      Real.sqrt ((min |a.x_coord - b.x_coord| (1 - |a.x_coord - b.x_coord|)) ^ 2 +
        (min |a.y_coord - b.y_coord| (1 - |a.y_coord - b.y_coord|)) ^ 2))
    ∧ wrappedDelta 0.01 0.99 = 0.02
    ∧ wrappedDelta 0.01 0.99 ≠ 0.98
    ∧ (∀ a b : ℝ, |a - b| = 1 / 2 → wrappedDelta a b = 1 / 2)
    ∧ (∀ a b : ℝ, wrappedDelta a b ≤ 1 / 2) := by
  have habs : |(0.01 : ℝ) - 0.99| = 0.98 := by
    rw [abs_of_nonpos (by norm_num)]
    norm_num
  refine ⟨fun a b => rfl, ?_, ?_, ?_, ?_⟩
  · rw [wrappedDelta, habs]
    norm_num [min_def]
  · rw [wrappedDelta, habs]
    norm_num [min_def]
  · intro a b h
    rw [wrappedDelta, h]
    norm_num
  · intro a b
    rw [wrappedDelta]
    rcases le_or_lt |a - b| (1 / 2) with h | h
    · exact le_trans (min_le_left _ _) h
    · exact le_trans (min_le_right _ _) (by linarith)

/-- Witness for C2 at the concrete pair 3/4, 1/4 whose coordinates differ by
exactly one half. -/
theorem C2_toroidal_distance_witness : wrappedDelta (3 / 4) (1 / 4) = 1 / 2 :=
  C2_toroidal_distance.2.2.2.1 (3 / 4) (1 / 4)
    (by rw [show (3 / 4 : ℝ) - 1 / 4 = 1 / 2 by norm_num, abs_of_nonneg (by norm_num)])

/-! ### Claim C5 -/

/-- C5: the kernel normalisation constant derived from a std s and radius r
is 0 when s = 0 and 2 s^2 pi (1 - exp(-r^2 / (2 s^2))) otherwise, and the
same rule is instantiated independently with the birth kernel parameters and
the death kernel parameters. -/
theorem C5_kernel_norm :
    (∀ r s : ℝ, kernelNorm r (s ^ 2) =
      if s = 0 then 0 else 2 * s ^ 2 * Real.pi * (1 - Real.exp (-(r ^ 2) / (2 * s ^ 2))))
    ∧ (∀ s : Species, eventVar Event.Birth s = s.birth_std ^ 2
        ∧ eventRadius Event.Birth s = s.birth_radius_max
        ∧ eventVar Event.Death s = s.death_std ^ 2
        ∧ eventRadius Event.Death s = s.death_radius_max) := by
  constructor
  · intro r s
    rw [kernelNorm]
    by_cases hs : s = 0
    · simp [hs]
    · rw [if_neg (pow_ne_zero 2 hs), if_neg hs]
      have harg : (-1 * r ^ 2) / (2 * s ^ 2) = -(r ^ 2) / (2 * s ^ 2) := by ring
      rw [harg]
  · intro s
    exact ⟨rfl, rfl, rfl, rfl⟩

/-! ### Claim C6 -/

/-- C6: at the draw u = 0, which the generator range [0,1) of rng.gen can
produce, the computed time increment (-1/p_total) * ln(1 - u) equals 0 even
for positive total rate, so the source's assertion delta_t > 0 fails; the
claim that the draw is over the open interval (0,1) and that the assertion
can never fail is contradicted by the code at this input. -/
theorem C6_delta_t_zero :
    incrementTimeDelta 1 0 = 0 ∧ ¬0 < incrementTimeDelta 1 0 := by
  constructor <;> simp [incrementTimeDelta]

/-! ### Claim C7 -/

/-- Counterexample for C7: starting from two individuals with ids 0 and 1, a
death removing the individual with id 1 followed by a birth assigns the
child the id max(live ids) + 1 = 1, which is exactly the id of the removed
individual: ids of dead individuals are reused, contradicting the claim
that a new id differs from the id of every individual that has ever
existed. -/
theorem C7_id_reuse_cex :
    (popC7.individuals.map fun x => x.id) = [0, 1]
    ∧ ((popC7.execute_death 1).individuals.map fun x => x.id) = [0]
    ∧ (((popC7.execute_death 1).execute_birth 0 0 0).individuals.map fun x => x.id) =
        [0, 1] := by
  refine ⟨?_, ?_, ?_⟩
  · rw [popC7_individuals]
    rfl
  · rw [death_individuals, popC7_individuals]
    rfl
  · rw [birth_individuals, death_individuals, popC7_individuals]
    simp [maxId, Individual.new]

/-- C7 amended: the id assigned to a child is max(live ids) + 1, which is
distinct from the id of every currently live individual (but can coincide
with the id of a previously removed individual). -/
theorem C7_fresh_id (pop : Population) (parent_id : ℕ) (rx ry : ℝ)
    (_hne : pop.individuals ≠ []) :
    (pop.execute_birth parent_id rx ry).individuals =
      pop.individuals ++ [Individual.new (maxId pop.individuals + 1)
        (pop.individuals.getD parent_id default).species (wrapCoord rx) (wrapCoord ry)]
    ∧ ∀ a ∈ pop.individuals, a.id ≠ maxId pop.individuals + 1 := by
  refine ⟨rfl, fun a ha => ?_⟩
  have := le_maxId pop.individuals a ha
  omega

/-- Witness for C7 at the concrete one-individual population popEx. -/
theorem C7_fresh_id_witness :
    (popEx.execute_birth 0 0 0).individuals =
      popEx.individuals ++ [Individual.new (maxId popEx.individuals + 1)
        (popEx.individuals.getD 0 default).species (wrapCoord 0) (wrapCoord 0)] :=
  (C7_fresh_id popEx 0 0 0 (by rw [popEx_individuals]; simp)).1

/-! ### Claim C8 -/

/-- C8: construction performs no validation at all: Population::new is total
(its return type has no error channel), an empty species list yields an
empty population with the usual initial checkpoint, a negative initial
count is silently saturated to zero individuals by the float-to-usize cast,
and a species with negative kernel std and radius is accepted and creates
its individual; nothing is rejected before the distance pass, contradicting
the claim. -/
theorem C8_no_validation :
    (Population.new [] rngZ).size = 0
    ∧ (Population.new [] rngZ).history.checkpoints = [{ time := 0, species_individuals := [] }]
    ∧ (Population.new [sNegC1] rngZ).individuals = []
    ∧ (Population.new [sNegStd] rngZ).size = 1 := by
  have hneg : speciesCount sNegC1 = 0 := by
    rw [speciesCount, Nat.floor_eq_zero]
    norm_num [sNegC1]
  refine ⟨rfl, rfl, ?_, ?_⟩
  · rw [new_individuals, initIndividualsGo, hneg, initIndividualsGo]
    simp
  · rw [new_size, initGo_single_one sNegStd rfl rngZ]
    rfl

/-! ### Claim C9 -/

/-- Counterexample for C9: the checkpoint created at initialisation of a
population that does contain a live individual records an empty
species_individuals vector rather than the per-species coordinate arrays of
the live individuals (which get_checkpoint would produce). -/
theorem C9_initial_checkpoint_cex :
    popEx.history.checkpoints = [{ time := 0, species_individuals := [] }]
    ∧ popEx.get_checkpoint = { time := 0, species_individuals := [([0], [0])] }
    ∧ ({ time := 0, species_individuals := [] } : Checkpoint) ≠
        { time := 0, species_individuals := [([0], [0])] } := by
  refine ⟨rfl, ?_, by simp⟩
  rw [Population.get_checkpoint]
  have hsl : popEx.species_list = [sEx] := rfl
  have ht : popEx.t = 0 := rfl
  rw [hsl, ht, popEx_individuals]
  simp [Individual.new, sEx]

/-- C9 amended: the checkpoint returned by step is taken after the event has
executed and records the post-event time together with, per species in
species_list order, the unzipped coordinate arrays of exactly the live
individuals of that species; the checkpoint created at initialisation
instead records time 0 with an empty per-species vector. -/
theorem C9_checkpoint_contents :
    (∀ (pop : Population) (u1 u2 rx ry : ℝ),
      ((pop.step u1 u2 rx ry).2.1).time = ((pop.step u1 u2 rx ry).1).t
      ∧ ((pop.step u1 u2 rx ry).2.1).species_individuals =
          ((pop.step u1 u2 rx ry).1).species_list.map fun s =>
            ((((pop.step u1 u2 rx ry).1).individuals.filter fun x =>
              x.species.id == s.id).map fun x => (x.x_coord, x.y_coord)).unzip)
    ∧ ∀ (sl : List Species) (rng : ℕ → ℝ),
        (Population.new sl rng).history.checkpoints =
          [{ time := 0, species_individuals := [] }] :=
  ⟨fun _ _ _ _ _ => ⟨rfl, rfl⟩, fun _ _ => rfl⟩

/-! ### Claim C1 -/

theorem update_neighbor_weights_size (pop : Population) (w : List ℝ) (e : Event) :
    (pop.update_neighbor_weights w e).size = pop.size := rfl

theorem update_neighbor_weights_individuals (pop : Population) (w : List ℝ) (e : Event) :
    (pop.update_neighbor_weights w e).individuals = zipSetWeights e pop.individuals w := rfl

theorem update_probabilities_individuals (pop : Population) :
    pop.update_probabilities.individuals =
      pop.individuals.map Individual.update_probabilities := rfl

theorem popEx_cnw_birth : popEx.compute_neighbor_weights Event.Birth = [0] :=
  cnw_single_zero popEx Event.Birth popEx_size
    (by rw [popEx_individuals]; simp [Individual.new, eventVar, sEx])

theorem pEx_individuals : pEx.individuals = [Individual.new 0 sEx 0 0] := by
  have hq_ind : (popEx.update_neighbor_weights (popEx.compute_neighbor_weights Event.Birth)
      Event.Birth).individuals =
      [Individual.set_neighbor_weight Event.Birth 0 (Individual.new 0 sEx 0 0)] := by
    rw [update_neighbor_weights_individuals, popEx_cnw_birth, popEx_individuals]
    rfl
  have hq_size : (popEx.update_neighbor_weights (popEx.compute_neighbor_weights Event.Birth)
      Event.Birth).size = 1 := by
    rw [update_neighbor_weights_size, popEx_size]
  have hq_cnw : (popEx.update_neighbor_weights (popEx.compute_neighbor_weights Event.Birth)
      Event.Birth).compute_neighbor_weights Event.Death = [0] :=
    cnw_single_zero _ Event.Death hq_size
      (by rw [hq_ind]; simp [Individual.set_neighbor_weight, Individual.new, eventVar, sEx])
  show ((popEx.update_neighbor_weights (popEx.compute_neighbor_weights Event.Birth)
      Event.Birth).update_neighbor_weights
      ((popEx.update_neighbor_weights (popEx.compute_neighbor_weights Event.Birth)
        Event.Birth).compute_neighbor_weights Event.Death)
      Event.Death).update_probabilities.individuals = [Individual.new 0 sEx 0 0]
  rw [update_probabilities_individuals, update_neighbor_weights_individuals, hq_cnw, hq_ind]
  simp [zipSetWeights, Individual.update_probabilities, Individual.set_neighbor_weight,
    Individual.new, sEx]

theorem pEx_sums : pBirthSum pEx = 0 ∧ pDeathSum pEx = 0 ∧ pMoveSum pEx = 0 := by
  refine ⟨?_, ?_, ?_⟩ <;>
    simp [pBirthSum, pDeathSum, pMoveSum, pEx_individuals, Individual.new]

/-- C1: when every rate parameter of the single individual is zero the total
rate computed by choose_event is 0; the weights the source then passes to
WeightedIndex::new are all 0/0 (NaN in f64, 0 in this real model), and the
validity predicate of WeightedIndex fails on them, so the unconditional
unwrap in weighted_sample panics: the code attempts the weighted draw and
dies instead of reporting an Exhausted terminal state (no such state exists
in the source), although the population size is still unchanged at that
point. -/
theorem C1_exhaustion_panics :
    pTotal pEx = 0
    ∧ pEx.event_weights = [0, 0, 0]
    ∧ ¬weightedIndexOk pEx.event_weights
    ∧ pEx.size = popEx.size := by
  obtain ⟨hb, hd, hm⟩ := pEx_sums
  have ht : pTotal pEx = 0 := by rw [pTotal, hb, hd, hm]; ring
  have hw : pEx.event_weights = [0, 0, 0] := by
    rw [Population.event_weights, hb, hd, hm]
    norm_num
  refine ⟨ht, hw, ?_, rfl⟩
  rw [hw, weightedIndexOk]
  simp

/-! ### Claim C3 -/

theorem sample3_val (w0 w1 w2 u : ℝ) (hu : u < w0 + w1 + w2) :
    weightedIndexSample [w0, w1, w2] u =
      if u < w0 then 0 else if u - w0 < w1 then 1 else 2 := by
  simp only [weightedIndexSample]
  split_ifs with h1 h2 h3
  · rfl
  · rfl
  · rfl
  · exfalso
    linarith

theorem sample3_event (w0 w1 w2 u : ℝ) (hu : u < w0 + w1 + w2) :
    (chooseEventChoices.getD (weightedIndexSample [w0, w1, w2] u) Event.Birth = Event.Birth
        ↔ u < w0)
    ∧ (chooseEventChoices.getD (weightedIndexSample [w0, w1, w2] u) Event.Birth = Event.Death
        ↔ w0 ≤ u) := by
  rw [sample3_val w0 w1 w2 u hu]
  by_cases h1 : u < w0
  · rw [if_pos h1]
    constructor
    · exact ⟨fun _ => h1, fun _ => rfl⟩
    · constructor
      · intro h
        exact absurd h (by decide)
      · intro h
        exact absurd h1 (not_lt.mpr h)
  · rw [if_neg h1]
    have hD : chooseEventChoices.getD (if u - w0 < w1 then 1 else 2) Event.Birth
        = Event.Death := by
      split_ifs <;> rfl
    rw [hD]
    constructor
    · constructor
      · intro h
        exact absurd h (by decide)
      · intro h
        exact absurd h h1
    · exact ⟨fun _ => not_lt.mp h1, fun _ => rfl⟩

theorem findIdx_getElem_of_nodup (l : List Individual) :
    ∀ (k : ℕ) (hk : k < l.length), l.Nodup →
      (l.findIdx fun x => decide (x = l[k])) = k := by
  induction l with
  | nil =>
      intro k hk
      simp at hk
  | cons a t ih =>
      intro k hk hnd
      rcases k with _ | k
      · simp only [List.findIdx_cons, List.getElem_cons_zero]
        simp
      · have hk' : k < t.length := by simpa using hk
        have hmem : t[k] ∈ t := List.getElem_mem hk'
        have hne : decide (a = t[k]) = false := by
          apply decide_eq_false
          intro h
          exact (List.nodup_cons.mp hnd).1 (h ▸ hmem)
        simp only [List.findIdx_cons, List.getElem_cons_succ]
        rw [hne]
        simp only [cond_false]
        rw [ih k hk' (List.nodup_cons.mp hnd).2]

/-- C3: with the total rate R and the aggregate sums of choose_event, the
event type drawn from the three-slot categorical (Birth, Death, Death with
weights S_birth/R, S_death/R, S_move/R) is Birth exactly on a u1-interval of
mass S_birth/R and Death on the complementary interval of mass
S_death/R + S_move/R = (S_death + S_move)/R; the actor is then sampled over
all individuals with weights p_birth/S_birth (or p_death/S_death), and the
returned index is exactly the sampled one; the returned rate is R. -/
theorem C3_event_and_actor_selection (pop : Population) (u1 u2 : ℝ)
    (_hb : 0 ≤ pBirthSum pop / pTotal pop)
    (_hu0 : 0 ≤ u1)
    (hu : u1 < pBirthSum pop / pTotal pop + pDeathSum pop / pTotal pop
        + pMoveSum pop / pTotal pop) :
    ((pop.choose_event u1 u2).1 = Event.Birth ↔ u1 < pBirthSum pop / pTotal pop)
    ∧ ((pop.choose_event u1 u2).1 = Event.Death ↔ pBirthSum pop / pTotal pop ≤ u1)
    ∧ pDeathSum pop / pTotal pop + pMoveSum pop / pTotal pop
        = (pDeathSum pop + pMoveSum pop) / pTotal pop
    ∧ (pop.choose_event u1 u2).2.2 = pTotal pop
    ∧ ((pop.choose_event u1 u2).1 = Event.Birth → pop.individuals.Nodup →
        ∀ _hlt : weightedIndexSample (pop.individuals.map fun x => x.p_birth / pBirthSum pop) u2
            < pop.individuals.length,
          (pop.choose_event u1 u2).2.1 =
            weightedIndexSample (pop.individuals.map fun x => x.p_birth / pBirthSum pop) u2)
    ∧ ((pop.choose_event u1 u2).1 = Event.Death → pop.individuals.Nodup →
        ∀ _hlt : weightedIndexSample (pop.individuals.map fun x => x.p_death / pDeathSum pop) u2
            < pop.individuals.length,
          (pop.choose_event u1 u2).2.1 =
            weightedIndexSample (pop.individuals.map fun x => x.p_death / pDeathSum pop) u2) := by
  have hev : (pop.choose_event u1 u2).1 =
      chooseEventChoices.getD (weightedIndexSample pop.event_weights u1) Event.Birth := rfl
  have hw : pop.event_weights =
      [pBirthSum pop / pTotal pop, pDeathSum pop / pTotal pop, pMoveSum pop / pTotal pop] := rfl
  obtain ⟨hBiff, hDiff⟩ := sample3_event (pBirthSum pop / pTotal pop)
    (pDeathSum pop / pTotal pop) (pMoveSum pop / pTotal pop) u1 hu
  refine ⟨by rw [hev, hw]; exact hBiff, by rw [hev, hw]; exact hDiff,
    div_add_div_same _ _ _, rfl, ?_, ?_⟩
  · intro hbirth hnd hlt
    rw [hev] at hbirth
    show pop.individuals.findIdx (fun x => decide (x =
        pop.individuals.getD (weightedIndexSample
          (match chooseEventChoices.getD (weightedIndexSample pop.event_weights u1)
              Event.Birth with
            | Event.Birth => pop.individuals.map fun x => x.p_birth / pBirthSum pop
            | Event.Death => pop.individuals.map fun x => x.p_death / pDeathSum pop) u2)
          default)) = _
    rw [hbirth]
    rw [List.getD_eq_getElem pop.individuals default hlt]
    exact findIdx_getElem_of_nodup pop.individuals _ hlt hnd
  · intro hdeath hnd hlt
    rw [hev] at hdeath
    show pop.individuals.findIdx (fun x => decide (x =
        pop.individuals.getD (weightedIndexSample
          (match chooseEventChoices.getD (weightedIndexSample pop.event_weights u1)
              Event.Birth with
            | Event.Birth => pop.individuals.map fun x => x.p_birth / pBirthSum pop
            | Event.Death => pop.individuals.map fun x => x.p_death / pDeathSum pop) u2)
          default)) = _
    rw [hdeath]
    rw [List.getD_eq_getElem pop.individuals default hlt]
    exact findIdx_getElem_of_nodup pop.individuals _ hlt hnd

/-- Witness for C3 at a concrete one-individual population with unit birth
and death intensity: total rate 2, Birth weight one half, and the draw
u1 = 1/4 falls in the Birth interval. -/
theorem C3_event_and_actor_selection_witness :
    (popC3W.choose_event (1 / 4) 0).1 = Event.Birth :=
  ((C3_event_and_actor_selection popC3W (1 / 4) 0
      (by norm_num [pBirthSum, pDeathSum, pMoveSum, pTotal, popC3W, indC3W])
      (by norm_num)
      (by norm_num [pBirthSum, pDeathSum, pMoveSum, pTotal, popC3W, indC3W])).1).mpr
    (by norm_num [pBirthSum, pDeathSum, pMoveSum, pTotal, popC3W, indC3W])

/-! ### Claim C4 -/

theorem distance_nonneg (a b : Individual) : 0 ≤ a.distance b :=
  Real.sqrt_nonneg _

theorem eventVar_eq_sq (e : Event) (s : Species) : eventVar e s = eventStd e s ^ 2 := by
  cases e <;> rfl

theorem kernelNorm_pos (r v : ℝ) (hv : 0 < v) (hr : 0 < r) : 0 < kernelNorm r v := by
  rw [kernelNorm, if_neg (ne_of_gt hv)]
  have harg : (-1 * r ^ 2) / (2 * v) < 0 :=
    div_neg_of_neg_of_pos (by nlinarith) (by linarith)
  have hexp : Real.exp ((-1 * r ^ 2) / (2 * v)) < 1 := by
    calc Real.exp ((-1 * r ^ 2) / (2 * v)) < Real.exp 0 := Real.exp_lt_exp.mpr harg
      _ = 1 := Real.exp_zero
  have hpi := Real.pi_pos
  have h2v : (0 : ℝ) < 2 * v := by linarith
  have hsub : 0 < 1 - Real.exp ((-1 * r ^ 2) / (2 * v)) := by linarith
  exact mul_pos (mul_pos h2v hpi) hsub

theorem weightEntry_eq_specTerm (d r v : ℝ) (hd : 0 ≤ d) (hv : 0 < v) :
    weightEntry d r v =
      if d < r then Real.exp (-d ^ 2 / (2 * v)) / kernelNorm r v else 0 := by
  by_cases hdr : d < r
  · have hr : 0 < r := lt_of_le_of_lt hd hdr
    have hn : 0 < kernelNorm r v := kernelNorm_pos r v hv hr
    rw [weightEntry, if_neg (by push_neg; exact ⟨ne_of_gt hv, ne_of_gt hn, hdr⟩), if_pos hdr]
    have harg : (-1 * d ^ 2) / (2 * v) = -d ^ 2 / (2 * v) := by ring
    rw [harg]
  · rw [weightEntry, if_pos (Or.inr (Or.inr hdr)), if_neg hdr]

theorem weightEntry_one_iff (r s : ℝ) :
    weightEntry 1 r (s ^ 2) ≠ 0 ↔ 1 < r ∧ s ≠ 0 := by
  by_cases hs : s = 0
  · subst hs
    rw [weightEntry]
    simp
  · have hv : 0 < s ^ 2 := lt_of_le_of_ne (sq_nonneg s) (Ne.symm (pow_ne_zero 2 hs))
    by_cases hr1 : 1 < r
    · have hn : 0 < kernelNorm r (s ^ 2) :=
        kernelNorm_pos r (s ^ 2) hv (lt_trans one_pos hr1)
      rw [weightEntry, if_neg (by push_neg; exact ⟨ne_of_gt hv, ne_of_gt hn, hr1⟩)]
      constructor
      · intro _
        exact ⟨hr1, hs⟩
      · intro _
        exact div_ne_zero (Real.exp_ne_zero _) (ne_of_gt hn)
    · rw [weightEntry, if_pos (Or.inr (Or.inr hr1))]
      constructor
      · intro h
        exact absurd rfl h
      · intro h
        exact absurd h.1 hr1

theorem getD_map_range (f : ℕ → ℝ) (n i : ℕ) (h : i < n) :
    ((List.range n).map f).getD i 0 = f i := by
  rw [List.getD_eq_getElem _ _ (by simpa using h)]
  simp

theorem sum_range_split (f : ℕ → ℝ) :
    ∀ n i : ℕ, i < n →
      ((List.range n).map f).sum
        = f i + (((List.range n).filter fun j => j != i).map f).sum := by
  intro n
  induction n with
  | zero =>
      intro i hi
      exact absurd hi (by omega)
  | succ n ih =>
      intro i hi
      simp only [List.range_succ, List.filter_append, List.map_append, List.sum_append]
      rcases Nat.lt_or_ge i n with h | h
      · rw [ih i h]
        have hfn : List.filter (fun j => j != i) [n] = [n] := by
          have : (n != i) = true := by simpa using ne_of_gt h
          simp [List.filter, this]
        rw [hfn]
        simp only [List.map_cons, List.map_nil, List.sum_cons, List.sum_nil]
        ring
      · have hin : i = n := by omega
        subst hin
        have hfind : List.filter (fun j => j != i) (List.range i) = List.range i := by
          apply List.filter_eq_self.mpr
          intro a ha
          simpa using ne_of_lt (List.mem_range.mp ha)
        have hone : List.filter (fun j => j != i) [i] = [] := by
          simp
        rw [hfind, hone]
        simp only [List.map_cons, List.map_nil, List.sum_cons, List.sum_nil]
        ring

/-- Counterexample for C4: in a reachable one-individual population whose
birth kernel has radius 2 and std 1, the computed neighbor effect is the
nonzero sentinel self-term exp(-1/2)/norm, while the claimed formula (a sum
over the OTHER individuals within the radius) is the empty sum 0: the code
includes the individual itself through the diagonal sentinel distance 1.0
whenever the radius exceeds 1. -/
theorem C4_self_sentinel_cex :
    specNeighborEffect popC4 0 Event.Birth = 0
    ∧ (popC4.compute_neighbor_weights Event.Birth).getD 0 0 ≠ 0 := by
  constructor
  · rw [specNeighborEffect, popC4_size]
    rw [show List.range 1 = [0] from rfl]
    simp
  · have hgd : (popC4.compute_neighbor_weights Event.Birth).getD 0 0 =
        (((List.range popC4.size).map fun j =>
          weightEntry (popC4.distances 0 j)
            (eventRadius Event.Birth (popC4.individuals.getD 0 default).species)
            (eventVar Event.Birth (popC4.individuals.getD 0 default).species)).sum)
          * eventEffect Event.Birth (popC4.individuals.getD 0 default).species := by
      rw [Population.compute_neighbor_weights]
      exact getD_map_range _ _ _ (by rw [popC4_size]; omega)
    rw [hgd, popC4_size]
    rw [show List.range 1 = [0] from rfl]
    simp only [List.map_cons, List.map_nil, List.sum_cons, List.sum_nil, add_zero]
    rw [popC4_distances, popC4_individuals]
    have hnorm : 0 < kernelNorm 2 1 := kernelNorm_pos 2 1 one_pos two_pos
    have hne : weightEntry 1 2 1 ≠ 0 := by
      rw [weightEntry, if_neg]
      · exact div_ne_zero (Real.exp_ne_zero _) (ne_of_gt hnorm)
      · push_neg
        exact ⟨one_ne_zero, ne_of_gt hnorm, by norm_num⟩
    simpa [Individual.new, eventRadius, eventVar, eventEffect, sC4] using hne

/-- C4 amended: for a population whose stored matrix holds the true pairwise
distances off the diagonal and the sentinel 1 on the diagonal, the computed
neighbor effect of individual i equals the spec formula (effect coefficient
times the kernel sum over exactly the other individuals within the radius,
0 when the std is zero) PLUS a sentinel self-term
effect * exp(-1/(2 var))/norm that is present exactly when the kernel
radius exceeds 1 and the std is nonzero. -/
theorem C4_neighbor_effect (pop : Population) (e : Event) (i : ℕ) (hi : i < pop.size)
    (hdiag : ∀ j, j < pop.size → pop.distances j j = 1)
    (hoff : ∀ j k, j < pop.size → k < pop.size → j ≠ k →
      pop.distances j k =
        Individual.distance (pop.individuals.getD j default)
          (pop.individuals.getD k default)) :
    (pop.compute_neighbor_weights e).getD i 0
      = specNeighborEffect pop i e
        + (if 1 < eventRadius e (indSpec pop i) ∧ eventStd e (indSpec pop i) ≠ 0
           then eventEffect e (indSpec pop i) *
             (Real.exp (-1 / (2 * eventVar e (indSpec pop i)))
               / kernelNorm (eventRadius e (indSpec pop i)) (eventVar e (indSpec pop i)))
           else 0) := by
  have hgd : (pop.compute_neighbor_weights e).getD i 0 =
      (((List.range pop.size).map fun j =>
        weightEntry (pop.distances i j) (eventRadius e (indSpec pop i))
          (eventVar e (indSpec pop i))).sum)
        * eventEffect e (indSpec pop i) := by
    rw [Population.compute_neighbor_weights]
    exact getD_map_range _ _ _ hi
  rw [hgd]
  by_cases hstd : eventStd e (indSpec pop i) = 0
  · have hv : eventVar e (indSpec pop i) = 0 := by
      rw [eventVar_eq_sq, hstd]
      ring
    have hz : (((List.range pop.size).map fun j =>
        weightEntry (pop.distances i j) (eventRadius e (indSpec pop i))
          (eventVar e (indSpec pop i))).sum) = 0 := by
      apply List.sum_eq_zero
      intro x hx
      simp only [List.mem_map] at hx
      obtain ⟨j, _, rfl⟩ := hx
      rw [weightEntry, if_pos (Or.inl hv)]
    rw [hz, zero_mul, specNeighborEffect, if_pos hstd,
      if_neg (by intro hc; exact hc.2 hstd)]
    ring
  · have hv : 0 < eventVar e (indSpec pop i) := by
      rw [eventVar_eq_sq]
      exact lt_of_le_of_ne (sq_nonneg _) (Ne.symm (pow_ne_zero 2 hstd))
    have hsplit := sum_range_split (fun j =>
      weightEntry (pop.distances i j) (eventRadius e (indSpec pop i))
        (eventVar e (indSpec pop i))) pop.size i hi
    simp only [] at hsplit
    rw [hsplit]
    have hcong : (((List.range pop.size).filter fun j => j != i).map fun j =>
          weightEntry (pop.distances i j) (eventRadius e (indSpec pop i))
            (eventVar e (indSpec pop i)))
        = ((List.range pop.size).filter fun j => j != i).map fun j =>
            specKernelTerm pop i j e := by
      apply List.map_congr_left
      intro j hj
      rcases List.mem_filter.mp hj with ⟨hjr, hjne⟩
      have hj1 : j < pop.size := List.mem_range.mp hjr
      have hj2 : j ≠ i := by simpa using hjne
      rw [hoff i j hi hj1 (Ne.symm hj2), specKernelTerm]
      exact weightEntry_eq_specTerm _ _ _ (distance_nonneg _ _) hv
    rw [hcong, hdiag i hi, specNeighborEffect, if_neg hstd]
    by_cases hr1 : 1 < eventRadius e (indSpec pop i)
    · have hn : 0 < kernelNorm (eventRadius e (indSpec pop i)) (eventVar e (indSpec pop i)) :=
        kernelNorm_pos _ _ hv (lt_trans one_pos hr1)
      rw [if_pos ⟨hr1, hstd⟩]
      rw [weightEntry, if_neg (by push_neg; exact ⟨ne_of_gt hv, ne_of_gt hn, hr1⟩)]
      have harg : (-1 * (1 : ℝ) ^ 2) / (2 * eventVar e (indSpec pop i))
          = -1 / (2 * eventVar e (indSpec pop i)) := by ring
      rw [harg]
      ring
    · rw [if_neg (by intro hc; exact hr1 hc.1)]
      rw [weightEntry, if_pos (Or.inr (Or.inr hr1))]
      ring

/-- Witness for C4 at the one-individual all-zero population popEx, whose
matrix trivially satisfies the coherence hypotheses. -/
theorem C4_neighbor_effect_witness :
    (popEx.compute_neighbor_weights Event.Birth).getD 0 0
      = specNeighborEffect popEx 0 Event.Birth
        + (if 1 < eventRadius Event.Birth (indSpec popEx 0)
              ∧ eventStd Event.Birth (indSpec popEx 0) ≠ 0
           then eventEffect Event.Birth (indSpec popEx 0) *
             (Real.exp (-1 / (2 * eventVar Event.Birth (indSpec popEx 0)))
               / kernelNorm (eventRadius Event.Birth (indSpec popEx 0))
                   (eventVar Event.Birth (indSpec popEx 0)))
           else 0) :=
  C4_neighbor_effect popEx Event.Birth 0 (by rw [popEx_size]; omega)
    (fun j _ => popEx_distances j j)
    (fun j k hj hk hne =>
      absurd (show j = k by rw [popEx_size] at hj hk; omega) hne)

/-! ### Claim C10 -/

theorem reachable_diag (pop : Population) (h : Reachable pop) :
    ∀ i, i < pop.size → pop.distances i i = 1 := by
  induction h with
  | init sl rng =>
      intro i hi
      rw [new_distances]
      simp
  | birth p pid rx ry hp hlt ih =>
      intro i hi
      rw [birth_distances]
      rw [birth_size] at hi
      rcases Nat.lt_or_ge i p.size with h2 | h2
      · rw [if_pos ⟨h2, h2⟩]
        exact ih i h2
      · have h3 : i = p.size := by omega
        subst h3
        rw [if_neg (by omega), if_neg (by omega), if_neg (by omega)]
  | death p k hp hlt ih =>
      intro i hi
      rw [death_distances]
      rw [death_size] at hi
      apply ih
      rw [skipIdx]
      split_ifs <;> omega

/-- Counterexample for C10: in the reachable one-individual population whose
birth kernel radius 2 exceeds the sentinel 1 but whose birth std is 0, the
individual contributes nothing to its own neighbor-weight sum (the kernel
entry at the diagonal is 0), although its kernel radius exceeds 1.0: the
claimed iff fails without the extra nonzero-std condition. -/
theorem C10_self_term_cex :
    Reachable popC10
    ∧ popC10.size = 1
    ∧ 1 < eventRadius Event.Birth (indSpec popC10 0)
    ∧ weightEntry (popC10.distances 0 0) (eventRadius Event.Birth (indSpec popC10 0))
        (eventVar Event.Birth (indSpec popC10 0)) = 0
    ∧ popC10.compute_neighbor_weights Event.Birth = [0] := by
  refine ⟨Reachable.init [sC10] rngZ, popC10_size, ?_, ?_, ?_⟩
  · rw [indSpec, popC10_individuals]
    norm_num [Individual.new, eventRadius, sC10]
  · rw [weightEntry, if_pos]
    left
    rw [indSpec, popC10_individuals]
    norm_num [Individual.new, eventVar, sC10]
  · exact cnw_single_zero popC10 Event.Birth popC10_size
      (by rw [popC10_individuals]; norm_num [Individual.new, eventVar, sC10])

/-- C10 amended: in every population state reachable through new,
execute_birth and execute_death each in-range diagonal entry of the distance
matrix holds the sentinel 1.0, and consequently the individual's own kernel
entry in its neighbor-weight row is nonzero if and only if its kernel radius
exceeds 1.0 AND its kernel std is nonzero. -/
theorem C10_diagonal_sentinel (pop : Population) (hr : Reachable pop) (i : ℕ)
    (hi : i < pop.size) :
    pop.distances i i = 1
    ∧ ∀ e : Event,
        (weightEntry (pop.distances i i) (eventRadius e (indSpec pop i))
            (eventVar e (indSpec pop i)) ≠ 0
          ↔ 1 < eventRadius e (indSpec pop i) ∧ eventStd e (indSpec pop i) ≠ 0) := by
  have hd := reachable_diag pop hr i hi
  refine ⟨hd, fun e => ?_⟩
  rw [hd, eventVar_eq_sq]
  exact weightEntry_one_iff _ _

/-- Witness for C10 at the reachable one-individual population popEx. -/
theorem C10_diagonal_sentinel_witness : popEx.distances 0 0 = 1 :=
  (C10_diagonal_sentinel popEx (Reachable.init [sEx] rngZ) 0
    (by rw [popEx_size]; omega)).1

end PopSim
